import Mathlib

/-!
Verification of the binary tuple codec (src/db/src/storage/tuple.rs) and the
wire protocol framing (src/db/src/tcp/proto.rs) of the mydb repository.

Bytes are modelled as natural numbers (every byte produced by the encoders is
strictly below 256); buffers are lists of bytes.  Machine integers are modelled
as `Int` / `Nat` with explicit `% 2 ^ w` reductions at every point where the
Rust code converts a number to or from a fixed-width byte representation.
Fallible Rust code is modelled with `Except` / `Option`: each error constructor
documents whether it stands for a recoverable `Result::Err` or for a panic
(a process abort) in the original code.
-/

namespace MyDb

set_option maxRecDepth 8192

/-- Modelled from the spec: `DataType` is declared in `crate::sql::statement`,
which is not under src/ (tuple.rs only consumes it).  Spec section 3: closed set
of Boolean, 32/64-bit signed/unsigned integers, and bounded variable-length
text; the variant names and the `Varchar(max_characters)` payload follow the
uses in src/db/src/storage/tuple.rs. -/
inductive DataType where
  | Bool
  | Int
  | UnsignedInt
  | BigInt
  | UnsignedBigInt
  | Varchar (max_characters : Nat)
  deriving DecidableEq

/-- Modelled from the spec: `Value` is declared in `crate::sql::statement`,
which is not under src/.  Spec section 3: tagged union of boolean, integer
(stored as a wide signed integer: an `i128` per the uses in tuple.rs, modelled
as `Int`) and UTF-8 text.  A Rust `String` is modelled by the list of its UTF-8
bytes; Rust's `String` type guarantees those bytes are valid UTF-8. -/
inductive Value where
  | Bool (b : Bool)
  | Number (n : Int)
  | String (bytes : List Nat)
  deriving DecidableEq

/-- Modelled from the spec: `Column` is declared in `crate::db`, not under
src/.  Spec section 3: a (name, data_type) pair; the name (UTF-8 bytes) plays
no role in the codec. -/
structure Column where
  name : List Nat
  data_type : DataType
  deriving DecidableEq

/-- Modelled from the spec: `Schema` is declared in `crate::db`, not under
src/.  Spec section 3: an ordered sequence of columns. -/
structure Schema where
  columns : List Column
  deriving DecidableEq

/-- Big-endian bytes of `m % 256 ^ w`, most significant byte first.  Models the
suffixes of Rust's `iN::to_be_bytes`. -/
def beBytes : Nat → Nat → List Nat
  | 0, _ => []
  | w + 1, m => beBytes w (m / 256) ++ [m % 256]

/-- Little-endian bytes of `m % 256 ^ w`, least significant byte first.  Models
the prefixes of Rust's `usize::to_le_bytes`. -/
def leBytes : Nat → Nat → List Nat
  | 0, _ => []
  | w + 1, m => m % 256 :: leBytes w (m / 256)

/-- The unsigned value of a big-endian byte list (Rust's `from_be_bytes`). -/
def be_value (bytes : List Nat) : Nat :=
  bytes.foldl (fun acc byte => acc * 256 + byte) 0

/-- The unsigned value of a little-endian byte list (Rust's `from_le_bytes`,
with missing high bytes equal to zero). -/
def le_value (bytes : List Nat) : Nat :=
  bytes.foldr (fun byte acc => byte + 256 * acc) 0

/-- Rust's `i128::to_be_bytes`: 16 big-endian bytes of the two's-complement
representation, i.e. of `num` reduced modulo `2 ^ 128`. -/
def i128_to_be_bytes (num : Int) : List Nat :=
  beBytes 16 (num % (2 : Int) ^ 128).toNat

/-- Rust's `i128::from_be_bytes`: reinterpret 16 big-endian bytes as a
two's-complement signed 128-bit integer. -/
def i128_from_be_bytes (bytes : List Nat) : Int :=
  if be_value bytes < 2 ^ 127 then (be_value bytes : Int)
  else (be_value bytes : Int) - 2 ^ 128

/-- tuple.rs `byte_length_of_integer_type`.  The `Bool` / `Varchar` cases are
`unreachable!()` in the source; no definition below applies this function to
them (the catch-all integer match arms are reached only after `Bool` and
`Varchar` have been dispatched), so the placeholder result 0 is never used. -/
def byte_length_of_integer_type (data_type : DataType) : Nat :=
  match data_type with
  | .Int | .UnsignedInt => 4
  | .BigInt | .UnsignedBigInt => 8
  | _ => 0

/-- tuple.rs `utf8_length_prefix_bytes`: the Rust range match
`0..64 => 1, 64..16384 => 2, _ => 4`. -/
def utf8_length_prefix_bytes (max_characters : Nat) : Nat :=
  if max_characters < 64 then 1
  else if max_characters < 16384 then 2
  else 4

/-- tuple.rs `integer_is_within_range`: bounds of the Rust
`RangeInclusive` per integer type.  The non-integer case is `unreachable!()`
in the source, a panic; returning `false` routes those (equally aborting)
mismatch paths into the `assert_fail` panic of `serialize_value_into`. -/
def integer_is_within_range (integer : Int) (integer_type : DataType) : Bool :=
  match integer_type with
  | .Int => decide (-(2 ^ 31) ≤ integer ∧ integer ≤ 2 ^ 31 - 1)
  | .UnsignedInt => decide (0 ≤ integer ∧ integer ≤ 2 ^ 32 - 1)
  | .BigInt => decide (-(2 ^ 63) ≤ integer ∧ integer ≤ 2 ^ 63 - 1)
  | .UnsignedBigInt => decide (0 ≤ integer ∧ integer ≤ 2 ^ 64 - 1)
  | _ => false

/-- Failure modes of the encoder.  All three model PANICS (process aborts):
the Rust `serialize` / `serialize_key` functions return a plain `Vec<u8>` and
have no recoverable error channel at all.
`assert_fail`: the `assert!(integer_is_within_range(..))` range check, and the
`debug_assert_eq!` length check of `serialize`;
`todo_fail`: the `todo!()` for strings longer than `u32::MAX` bytes;
`mismatch_fail`: the `unreachable!()` on a data-type / value mismatch. -/
inductive EncodeErr where
  | assert_fail
  | todo_fail
  | mismatch_fail
  deriving DecidableEq

/-- tuple.rs `serialize_value_into`, returning the bytes it appends to `buf`.
The match arms are in source order; note that a `Value::Number` paired with a
`Bool` or `Varchar` column falls into the third (integer) arm exactly as in the
source, where it panics inside `integer_is_within_range` /
`byte_length_of_integer_type`. -/
def serialize_value_into (data_type : DataType) (value : Value) :
    Except EncodeErr (List Nat) :=
  match data_type, value with
  | .Varchar max_characters, .String string =>
    if 4294967295 < string.length then
      .error .todo_fail
    else
      let byte_length := leBytes 8 string.length
      let length_prefix_bytes := utf8_length_prefix_bytes max_characters
      .ok (byte_length.take length_prefix_bytes ++ string)
  | .Bool, .Bool b => .ok [if b then 1 else 0]
  | integer_type, .Number num =>
    if integer_is_within_range num integer_type then
      let byte_length := byte_length_of_integer_type integer_type
      let big_endian_bytes := i128_to_be_bytes num
      .ok (big_endian_bytes.drop (big_endian_bytes.length - byte_length))
    else
      .error .assert_fail
  | _, _ => .error .mismatch_fail

/-- tuple.rs `serialize_key`: serialize a single value into a fresh buffer. -/
def serialize_key (data_type : DataType) (value : Value) :
    Except EncodeErr (List Nat) :=
  serialize_value_into data_type value

/-- The per-column loop of tuple.rs `serialize`: fields are encoded left to
right into one buffer, the first panic aborting the whole call. -/
def serialize_fields : List (Column × Value) → Except EncodeErr (List Nat)
  | [] => .ok []
  | (col, val) :: rest =>
    match serialize_value_into col.data_type val with
    | .error e => .error e
    | .ok bytes =>
      match serialize_fields rest with
      | .error e => .error e
      | .ok more => .ok (bytes ++ more)

/-- tuple.rs `serialize`: the `debug_assert_eq!` comparing `schema.len()` with
the number of values (a panic in debug builds, modelled as always active), then
the zip of columns with values.  Every claim below about `serialize` concerns
tuples with one value per column, where the check passes either way. -/
def serialize (schema : Schema) (values : List Value) :
    Except EncodeErr (List Nat) :=
  if schema.columns.length = values.length then
    serialize_fields (schema.columns.zip values)
  else
    .error .assert_fail

/-- One summand of tuple.rs `size_of`: the closure applied to column `i`.
`none` models the panics of the source closure (the explicit `panic!` on a
non-string value under a `Varchar` column, and the index-out-of-bounds panic
of `tuple[i]`). -/
def size_of_col (tuple : List Value) (i : Nat) (col : Column) : Option Nat :=
  match col.data_type with
  | .Bool => some 1
  | .Varchar max_characters =>
    match tuple[i]? with
    | some (.String string) =>
      some (utf8_length_prefix_bytes max_characters + string.length)
    | _ => none
  | integer_type => some (byte_length_of_integer_type integer_type)

/-- The `iter().enumerate().map(..).sum()` of tuple.rs `size_of`. -/
def size_of_go (tuple : List Value) : Nat → List Column → Option Nat
  | _, [] => some 0
  | i, col :: cols =>
    match size_of_col tuple i col with
    | none => none
    | some s =>
      match size_of_go tuple (i + 1) cols with
      | none => none
      | some rest => some (s + rest)

/-- tuple.rs `size_of`: the on-disk size of `tuple` under `schema`, without
encoding. -/
def size_of (tuple : List Value) (schema : Schema) : Option Nat :=
  size_of_go tuple 0 schema.columns

/-- A UTF-8 continuation byte (`0x80..=0xBF`). -/
def is_utf8_cont (byte : Nat) : Bool := 128 ≤ byte && byte ≤ 191

/-- Validity of a byte list as UTF-8, as checked by Rust's
`String::from_utf8` (RFC 3629: no overlong forms, no surrogates, no code
points above `U+10FFFF`). -/
def is_valid_utf8 : List Nat → Bool
  | [] => true
  | b0 :: rest =>
    if b0 ≤ 127 then is_valid_utf8 rest
    else if 194 ≤ b0 && b0 ≤ 223 then
      match rest with
      | b1 :: rest2 => is_utf8_cont b1 && is_valid_utf8 rest2
      | _ => false
    else if b0 = 224 then
      match rest with
      | b1 :: b2 :: rest2 =>
        (160 ≤ b1 && b1 ≤ 191) && is_utf8_cont b2 && is_valid_utf8 rest2
      | _ => false
    else if 225 ≤ b0 && b0 ≤ 236 then
      match rest with
      | b1 :: b2 :: rest2 =>
        is_utf8_cont b1 && is_utf8_cont b2 && is_valid_utf8 rest2
      | _ => false
    else if b0 = 237 then
      match rest with
      | b1 :: b2 :: rest2 =>
        (128 ≤ b1 && b1 ≤ 159) && is_utf8_cont b2 && is_valid_utf8 rest2
      | _ => false
    else if 238 ≤ b0 && b0 ≤ 239 then
      match rest with
      | b1 :: b2 :: rest2 =>
        is_utf8_cont b1 && is_utf8_cont b2 && is_valid_utf8 rest2
      | _ => false
    else if b0 = 240 then
      match rest with
      | b1 :: b2 :: b3 :: rest2 =>
        (144 ≤ b1 && b1 ≤ 191) && is_utf8_cont b2 && is_utf8_cont b3 &&
          is_valid_utf8 rest2
      | _ => false
    else if 241 ≤ b0 && b0 ≤ 243 then
      match rest with
      | b1 :: b2 :: b3 :: rest2 =>
        is_utf8_cont b1 && is_utf8_cont b2 && is_utf8_cont b3 &&
          is_valid_utf8 rest2
      | _ => false
    else if b0 = 244 then
      match rest with
      | b1 :: b2 :: b3 :: rest2 =>
        (128 ≤ b1 && b1 ≤ 143) && is_utf8_cont b2 && is_utf8_cont b3 &&
          is_valid_utf8 rest2
      | _ => false
    else false

/-- Failure modes of the decoder.
`truncated` models the RECOVERABLE `io::Error` (`ErrorKind::UnexpectedEof`)
that `Read::read_exact` returns when the input ends early and that `read_from`
propagates with `?`.
`invalid_utf8` models the PANIC (process abort) of
`String::from_utf8(string).unwrap()` inside `read_from`: invalid UTF-8 is not
returned as an error by the Rust code, it aborts. -/
inductive DecodeErr where
  | truncated
  | invalid_utf8
  deriving DecidableEq

/-- One iteration of the per-column closure in tuple.rs `read_from`, reading a
single value from the front of `buf` and returning it with the unread rest
(the advanced reader position).

Integer columns: `read_exact` fills the last `byte_length` entries of a
zero-initialised 16-byte buffer; if the most significant read byte has its
high bit set (`& 0x80 != 0`) and the column is a signed type, the leading
bytes are set to `0xFF` (sign extension) before the `i128::from_be_bytes`
reinterpretation.

Varchar columns: the length prefix is read into the low `length_prefix_bytes`
bytes of a zero-initialised `usize` buffer (`usize::from_le_bytes`), then
exactly that many payload bytes are read and validated as UTF-8. -/
def read_value (data_type : DataType) (buf : List Nat) :
    Except DecodeErr (Value × List Nat) :=
  match data_type with
  | .Varchar max_characters =>
    let length_prefix_bytes := utf8_length_prefix_bytes max_characters
    if length_prefix_bytes ≤ buf.length then
      let length := le_value (buf.take length_prefix_bytes)
      let rest := buf.drop length_prefix_bytes
      if length ≤ rest.length then
        let string := rest.take length
        if is_valid_utf8 string then .ok (.String string, rest.drop length)
        else .error .invalid_utf8
      else .error .truncated
    else .error .truncated
  | .Bool =>
    match buf with
    | byte :: rest => .ok (.Bool (byte != 0), rest)
    | [] => .error .truncated
  | integer_type =>
    let byte_length := byte_length_of_integer_type integer_type
    if byte_length ≤ buf.length then
      let big_endian := buf.take byte_length
      let is_signed : Bool :=
        match integer_type with
        | .BigInt | .Int => true
        | _ => false
      let fill : Nat :=
        if (big_endian.headD 0 &&& 128) != 0 && is_signed then 255 else 0
      let big_endian_buf := List.replicate (16 - byte_length) fill ++ big_endian
      .ok (.Number (i128_from_be_bytes big_endian_buf), buf.drop byte_length)
    else .error .truncated

/-- The `schema.columns.iter().map(..)` / `collect()` loop of tuple.rs
`read_from`: values are read in schema order, the first failure short-circuits
the whole call. -/
def read_from_cols : List Column → List Nat →
    Except DecodeErr (List Value × List Nat)
  | [], buf => .ok ([], buf)
  | col :: cols, buf =>
    match read_value col.data_type buf with
    | .error e => .error e
    | .ok (v, rest) =>
      match read_from_cols cols rest with
      | .error e => .error e
      | .ok (vs, rest2) => .ok (v :: vs, rest2)

/-- tuple.rs `read_from`, with the reader modelled by the byte list `buf`; the
returned list holds the decoded tuple, the second component is the unread
remainder of the buffer (the final reader position). -/
def read_from (buf : List Nat) (schema : Schema) :
    Except DecodeErr (List Value × List Nat) :=
  read_from_cols schema.columns buf

/-- tuple.rs `deserialize`: `read_from(&mut io::Cursor::new(buf), schema)`
followed by `.unwrap()`.  The Rust function returns a plain `Vec<Value>` with
no error channel, so the `.error` outcome of this definition models a PANIC
(process abort) — both for a truncated buffer (the unwrapped `io::Error`) and
for invalid UTF-8.  Bytes left over after the last column are discarded. -/
def deserialize (buf : List Nat) (schema : Schema) :
    Except DecodeErr (List Value) :=
  match read_from buf schema with
  | .ok (values, _) => .ok values
  | .error e => .error e

/-- Byte-by-byte lexicographic comparison: the order `memcmp` induces on byte
strings (spec sections 4.1 and 4.2: raw byte comparison as used by the ordered
index). -/
def bytes_lt : List Nat → List Nat → Bool
  | [], [] => false
  | [], _ :: _ => true
  | _ :: _, [] => false
  | a :: as_, b :: bs => decide (a < b) || (decide (a = b) && bytes_lt as_ bs)

/-- The spec's precondition on a single value stored under a column type
(spec sections 4.1 and 8): the variant matches the column's kind, integers lie
in the declared type's range, and text is valid UTF-8 (an invariant of Rust's
`String` type).  The last conjunct — the UTF-8 byte length of a text value is
representable in the column's length-prefix width — is the amendment forced by
the counterexamples to C2/C5/C8 below: the encoder truncates the length prefix
of longer strings instead of rejecting them. -/
def value_matches (data_type : DataType) (value : Value) : Bool :=
  match data_type, value with
  | .Bool, .Bool _ => true
  | .Varchar max_characters, .String s =>
    is_valid_utf8 s &&
      decide (s.length < 2 ^ (8 * utf8_length_prefix_bytes max_characters))
  | integer_type, .Number n => integer_is_within_range n integer_type
  | _, _ => false

/-- The spec's precondition on a whole tuple: one value per column, in order,
each satisfying `value_matches`. -/
def tuple_matches (schema : Schema) (values : List Value) : Bool :=
  decide (schema.columns.length = values.length) &&
    (schema.columns.zip values).all fun cv => value_matches cv.1.data_type cv.2

/-- Modelled from the spec: the serialization of `Response::EmptySet` is not
under src/ — src/db/src/tcp/proto.rs declares the `Response` enum and
documents the byte layout, but the encoding function itself is absent.  Per
spec section 4.3 and the proto.rs module documentation: a 4-byte little-endian
payload length (always 5), the ASCII discriminator `!` (byte 33), then the
affected-row count as a 4-byte little-endian integer. -/
def encode_empty_set (affected_rows : Nat) : List Nat :=
  leBytes 4 5 ++ [33] ++ leBytes 4 affected_rows

/-! ## Arithmetic facts about the byte conversions -/

theorem beBytes_length (w m : Nat) : (beBytes w m).length = w := by
  induction w generalizing m with
  | zero => rfl
  | succ w ih => simp [beBytes, ih]

theorem leBytes_length (w m : Nat) : (leBytes w m).length = w := by
  induction w generalizing m with
  | zero => rfl
  | succ w ih => simp [leBytes, ih]

theorem foldl_be_init (bytes : List Nat) :
    ∀ a : Nat, bytes.foldl (fun acc byte => acc * 256 + byte) a =
      a * 256 ^ bytes.length + bytes.foldl (fun acc byte => acc * 256 + byte) 0 := by
  induction bytes with
  | nil => intro a; simp
  | cons b bs ih =>
    intro a
    simp only [List.foldl_cons, List.length_cons]
    rw [ih (a * 256 + b), ih (0 * 256 + b)]
    ring

theorem foldl_beBytes (w : Nat) :
    ∀ m a : Nat, (beBytes w m).foldl (fun acc byte => acc * 256 + byte) a =
      a * 256 ^ w + m % 256 ^ w := by
  induction w with
  | zero => intro m a; simp [beBytes, Nat.mod_one]
  | succ w ih =>
    intro m a
    have key : m % 256 ^ (w + 1) = m % 256 + 256 * (m / 256 % 256 ^ w) := by
      rw [pow_succ' 256 w, Nat.mod_mul]
    simp only [beBytes, List.foldl_append, List.foldl_cons, List.foldl_nil]
    rw [ih (m / 256), key]
    ring

theorem be_value_beBytes (w m : Nat) : be_value (beBytes w m) = m % 256 ^ w := by
  simpa [be_value] using foldl_beBytes w m 0

theorem be_value_append (xs ys : List Nat) :
    be_value (xs ++ ys) = be_value xs * 256 ^ ys.length + be_value ys := by
  unfold be_value
  rw [List.foldl_append, foldl_be_init ys]

theorem be_value_replicate_255 (k : Nat) :
    be_value (List.replicate k 255) = 256 ^ k - 1 := by
  induction k with
  | zero => rfl
  | succ k ih =>
    have hpos : 1 ≤ 256 ^ k := Nat.one_le_pow _ _ (by norm_num)
    unfold be_value at ih ⊢
    rw [List.replicate_succ, List.foldl_cons]
    rw [foldl_be_init]
    simp only [List.length_replicate] at *
    rw [ih]
    have : (0 : Nat) * 256 + 255 = 255 := by norm_num
    rw [this, pow_succ]
    omega

theorem be_value_replicate_0 (k : Nat) :
    be_value (List.replicate k 0) = 0 := by
  induction k with
  | zero => rfl
  | succ k ih =>
    unfold be_value at ih ⊢
    rw [List.replicate_succ, List.foldl_cons]
    simpa using ih

theorem beBytes_split (b : Nat) :
    ∀ a m : Nat, beBytes (a + b) m = beBytes a (m / 256 ^ b) ++ beBytes b m := by
  induction b with
  | zero => intro a m; simp [beBytes]
  | succ b ih =>
    intro a m
    have : a + (b + 1) = (a + b) + 1 := by omega
    rw [this]
    show beBytes (a + b) (m / 256) ++ [m % 256] = _
    rw [ih a (m / 256)]
    have hdiv : m / 256 / 256 ^ b = m / 256 ^ (b + 1) := by
      rw [Nat.div_div_eq_div_mul, ← pow_succ' 256 b]
    rw [hdiv, List.append_assoc]
    rfl

theorem beBytes_drop (len m : Nat) (h : len ≤ 16) :
    (beBytes 16 m).drop (16 - len) = beBytes len m := by
  have hsplit : beBytes 16 m = beBytes (16 - len) (m / 256 ^ len) ++ beBytes len m := by
    have h16 : (16 - len) + len = 16 := by omega
    conv_lhs => rw [← h16]
    exact beBytes_split len (16 - len) m
  rw [hsplit]
  exact List.drop_left' (beBytes_length _ _)

theorem beBytes_headD (w : Nat) :
    ∀ m : Nat, (beBytes (w + 1) m).headD 0 = m / 256 ^ w % 256 := by
  induction w with
  | zero => intro m; simp [beBytes]
  | succ w ih =>
    intro m
    show (beBytes (w + 1) (m / 256) ++ [m % 256]).headD 0 = _
    cases hb : beBytes (w + 1) (m / 256) with
    | nil =>
      have := beBytes_length (w + 1) (m / 256)
      rw [hb] at this
      simp at this
    | cons x xs =>
      have hx : x = m / 256 / 256 ^ w % 256 := by
        have := ih (m / 256)
        rw [hb] at this
        simpa using this
      have hdiv : m / 256 / 256 ^ w = m / 256 ^ (w + 1) := by
        rw [Nat.div_div_eq_div_mul, ← pow_succ' 256 w]
      simp [hx, hdiv]

theorem leBytes_take (p : Nat) :
    ∀ w m : Nat, p ≤ w → (leBytes w m).take p = leBytes p m := by
  induction p with
  | zero => intro w m _; rfl
  | succ p ih =>
    intro w m hpw
    match w with
    | w + 1 =>
      show (m % 256 :: leBytes w (m / 256)).take (p + 1) =
        m % 256 :: leBytes p (m / 256)
      rw [List.take_succ_cons, ih w (m / 256) (by omega)]

theorem le_value_leBytes (w : Nat) :
    ∀ m : Nat, le_value (leBytes w m) = m % 256 ^ w := by
  induction w with
  | zero => intro m; simp [leBytes, le_value, Nat.mod_one]
  | succ w ih =>
    intro m
    show m % 256 + 256 * le_value (leBytes w (m / 256)) = _
    rw [ih (m / 256), pow_succ' 256 w, Nat.mod_mul]

set_option maxRecDepth 4096 in
theorem land_128_fin : ∀ b : Fin 256, ((b : Nat) &&& 128 = 0) ↔ (b : Nat) < 128 := by
  decide

theorem land_128 (b : Nat) (hb : b < 256) : (b &&& 128 = 0) ↔ b < 128 :=
  land_128_fin ⟨b, hb⟩

theorem beBytes_headD_high (len m : Nat) (hlen : 0 < len) :
    (beBytes len m).headD 0 = m / 256 ^ (len - 1) % 256 := by
  have h : len = (len - 1) + 1 := by omega
  conv_lhs => rw [h]
  exact beBytes_headD (len - 1) m

/-- Decoding a zero-extended big-endian buffer: the unsigned value. -/
theorem i128_filled_0 (len m : Nat) (h : len ≤ 8) :
    i128_from_be_bytes (List.replicate (16 - len) 0 ++ beBytes len m) =
      ((m % 256 ^ len : Nat) : Int) := by
  unfold i128_from_be_bytes
  rw [be_value_append, beBytes_length, be_value_replicate_0, be_value_beBytes]
  have h1 : (256 : Nat) ^ len ≤ 256 ^ 8 := Nat.pow_le_pow_right (by norm_num) h
  have h2 : (256 : Nat) ^ 8 < 2 ^ 127 := by norm_num
  have h3 : m % 256 ^ len < 256 ^ len :=
    Nat.mod_lt _ (Nat.pos_pow_of_pos _ (by norm_num))
  rw [if_pos (by omega)]
  norm_num

/-- Decoding a 0xFF-extended (sign-extended) big-endian buffer: the
two's-complement value. -/
theorem i128_filled_255 (len m : Nat) (h : len ≤ 8) :
    i128_from_be_bytes (List.replicate (16 - len) 255 ++ beBytes len m) =
      ((m % 256 ^ len : Nat) : Int) - ((256 ^ len : Nat) : Int) := by
  unfold i128_from_be_bytes
  rw [be_value_append, beBytes_length, be_value_replicate_255, be_value_beBytes]
  have hpow : (256 : Nat) ^ (16 - len) * 256 ^ len = 256 ^ 16 := by
    rw [← pow_add]
    congr 1
    omega
  have hR : 1 ≤ (256 : Nat) ^ (16 - len) :=
    Nat.one_le_pow _ _ (by norm_num)
  have hL : 1 ≤ (256 : Nat) ^ len := Nat.one_le_pow _ _ (by norm_num)
  have h1 : (256 : Nat) ^ len ≤ 256 ^ 8 := Nat.pow_le_pow_right (by norm_num) h
  have h2 : (256 : Nat) ^ 8 = 2 ^ 64 := by norm_num
  have h16 : (256 : Nat) ^ 16 = 2 ^ 128 := by norm_num
  have h3 : m % 256 ^ len < 256 ^ len :=
    Nat.mod_lt _ (Nat.pos_pow_of_pos _ (by norm_num))
  have hu : (256 ^ (16 - len) - 1) * 256 ^ len + m % 256 ^ len =
      2 ^ 128 - 256 ^ len + m % 256 ^ len := by
    rw [Nat.sub_mul, hpow, h16]
    omega
  rw [hu]
  rw [if_neg (by omega)]
  omega

/-! ## Per-type encode / decode lemmas -/

/-- What `serialize_value_into` emits for an in-range number: the last
`byte_length` bytes of the big-endian two's-complement `i128`. -/
theorem svi_number_eq (dt : DataType) (n : Int)
    (h : integer_is_within_range n dt = true) :
    serialize_value_into dt (.Number n) =
      .ok (beBytes (byte_length_of_integer_type dt)
        ((n % (2 : Int) ^ 128).toNat)) := by
  have hdrop : ∀ len, len ≤ 16 →
      (i128_to_be_bytes n).drop ((i128_to_be_bytes n).length - len) =
        beBytes len ((n % (2 : Int) ^ 128).toNat) := by
    intro len hl
    unfold i128_to_be_bytes
    rw [beBytes_length]
    exact beBytes_drop len _ hl
  cases dt with
  | Bool => simp [integer_is_within_range] at h
  | Varchar mc => simp [integer_is_within_range] at h
  | Int =>
    have he : serialize_value_into .Int (.Number n) =
        (if integer_is_within_range n .Int then
          Except.ok ((i128_to_be_bytes n).drop ((i128_to_be_bytes n).length - 4))
        else Except.error EncodeErr.assert_fail) := rfl
    rw [he, h, if_pos rfl, hdrop 4 (by norm_num)]
    rfl
  | UnsignedInt =>
    have he : serialize_value_into .UnsignedInt (.Number n) =
        (if integer_is_within_range n .UnsignedInt then
          Except.ok ((i128_to_be_bytes n).drop ((i128_to_be_bytes n).length - 4))
        else Except.error EncodeErr.assert_fail) := rfl
    rw [he, h, if_pos rfl, hdrop 4 (by norm_num)]
    rfl
  | BigInt =>
    have he : serialize_value_into .BigInt (.Number n) =
        (if integer_is_within_range n .BigInt then
          Except.ok ((i128_to_be_bytes n).drop ((i128_to_be_bytes n).length - 8))
        else Except.error EncodeErr.assert_fail) := rfl
    rw [he, h, if_pos rfl, hdrop 8 (by norm_num)]
    rfl
  | UnsignedBigInt =>
    have he : serialize_value_into .UnsignedBigInt (.Number n) =
        (if integer_is_within_range n .UnsignedBigInt then
          Except.ok ((i128_to_be_bytes n).drop ((i128_to_be_bytes n).length - 8))
        else Except.error EncodeErr.assert_fail) := rfl
    rw [he, h, if_pos rfl, hdrop 8 (by norm_num)]
    rfl

/-- Decoding the 4-byte signed encoding of an in-range `n` recovers `n`. -/
theorem read_value_int_rt (n : Int) (rest : List Nat)
    (hlo : -(2 ^ 31) ≤ n) (hhi : n ≤ 2 ^ 31 - 1) :
    read_value .Int (beBytes 4 ((n % (2 : Int) ^ 128).toNat) ++ rest) =
      .ok (.Number n, rest) := by
  set m := (n % (2 : Int) ^ 128).toNat with hm_def
  have hm_int : (m : Int) = n % (2 : Int) ^ 128 :=
    Int.toNat_of_nonneg (Int.emod_nonneg n (by norm_num))
  have hb_len : (beBytes 4 m ++ rest).length = 4 + rest.length := by
    simp [beBytes_length]
  have htake : (beBytes 4 m ++ rest).take 4 = beBytes 4 m :=
    List.take_left' (beBytes_length 4 m)
  have hdrop : (beBytes 4 m ++ rest).drop 4 = rest :=
    List.drop_left' (beBytes_length 4 m)
  have hrv : read_value .Int (beBytes 4 m ++ rest) =
      if 4 ≤ (beBytes 4 m ++ rest).length then
        .ok (.Number (i128_from_be_bytes
          (List.replicate (16 - 4)
            (if (((beBytes 4 m ++ rest).take 4).headD 0 &&& 128) != 0 && true
              then 255 else 0)
            ++ (beBytes 4 m ++ rest).take 4)),
          (beBytes 4 m ++ rest).drop 4)
      else .error .truncated := rfl
  rw [hrv, htake, hdrop, if_pos (by rw [hb_len]; omega)]
  have hhead : (beBytes 4 m).headD 0 = m / 256 ^ 3 % 256 :=
    beBytes_headD_high 4 m (by norm_num)
  rw [hhead]
  rcases le_or_lt 0 n with hn | hn
  · have he : n % (2 : Int) ^ 128 = n := Int.emod_eq_of_lt hn (by omega)
    have hmn : (m : Int) = n := by rw [hm_int, he]
    have hm31 : m < 2 ^ 31 := by omega
    have hdivsmall : m / 256 ^ 3 % 256 < 128 := by
      have h3 : (256 : Nat) ^ 3 = 16777216 := by norm_num
      rw [h3]
      omega
    have hland : (m / 256 ^ 3 % 256 &&& 128) = 0 :=
      (land_128 _ (Nat.mod_lt _ (by norm_num))).mpr hdivsmall
    rw [hland]
    norm_num
    rw [i128_filled_0 4 m (by norm_num)]
    have hmod : m % 256 ^ 4 = m := Nat.mod_eq_of_lt (by
      have h4 : (256 : Nat) ^ 4 = 4294967296 := by norm_num
      omega)
    rw [hmod, hmn]
  · have he : n % (2 : Int) ^ 128 = n + 2 ^ 128 := by omega
    have hmval : (m : Int) = n + 2 ^ 128 := by rw [hm_int, he]
    have h4 : (256 : Nat) ^ 4 = 4294967296 := by norm_num
    have hr : ((m % 256 ^ 4 : Nat) : Int) = n + 4294967296 := by
      rw [h4]
      push_cast
      omega
    have hhead_val : m / 256 ^ 3 % 256 = m % 256 ^ 4 / 256 ^ 3 := by
      rw [show (256 : Nat) ^ 4 = 256 ^ 3 * 256 by ring, Nat.mod_mul_right_div_self]
    have hge : 128 ≤ m / 256 ^ 3 % 256 := by
      rw [hhead_val]
      have h3 : (256 : Nat) ^ 3 = 16777216 := by norm_num
      rw [h3]
      omega
    have hland : ((m / 256 ^ 3 % 256 &&& 128) != 0) = true := by
      have hne : (m / 256 ^ 3 % 256 &&& 128) ≠ 0 := by
        intro hz
        have := (land_128 _ (Nat.mod_lt _ (by norm_num))).mp hz
        omega
      simpa using hne
    rw [hland]
    norm_num
    rw [i128_filled_255 4 m (by norm_num)]
    have : ((m % 256 ^ 4 : Nat) : Int) - ((256 ^ 4 : Nat) : Int) = n := by
      rw [hr]
      norm_num
    rw [this]

/-- Decoding the 8-byte signed encoding of an in-range `n` recovers `n`. -/
theorem read_value_bigint_rt (n : Int) (rest : List Nat)
    (hlo : -(2 ^ 63) ≤ n) (hhi : n ≤ 2 ^ 63 - 1) :
    read_value .BigInt (beBytes 8 ((n % (2 : Int) ^ 128).toNat) ++ rest) =
      .ok (.Number n, rest) := by
  set m := (n % (2 : Int) ^ 128).toNat with hm_def
  have hm_int : (m : Int) = n % (2 : Int) ^ 128 :=
    Int.toNat_of_nonneg (Int.emod_nonneg n (by norm_num))
  have hb_len : (beBytes 8 m ++ rest).length = 8 + rest.length := by
    simp [beBytes_length]
  have htake : (beBytes 8 m ++ rest).take 8 = beBytes 8 m :=
    List.take_left' (beBytes_length 8 m)
  have hdrop : (beBytes 8 m ++ rest).drop 8 = rest :=
    List.drop_left' (beBytes_length 8 m)
  have hrv : read_value .BigInt (beBytes 8 m ++ rest) =
      if 8 ≤ (beBytes 8 m ++ rest).length then
        .ok (.Number (i128_from_be_bytes
          (List.replicate (16 - 8)
            (if (((beBytes 8 m ++ rest).take 8).headD 0 &&& 128) != 0 && true
              then 255 else 0)
            ++ (beBytes 8 m ++ rest).take 8)),
          (beBytes 8 m ++ rest).drop 8)
      else .error .truncated := rfl
  rw [hrv, htake, hdrop, if_pos (by rw [hb_len]; omega)]
  have hhead : (beBytes 8 m).headD 0 = m / 256 ^ 7 % 256 :=
    beBytes_headD_high 8 m (by norm_num)
  rw [hhead]
  rcases le_or_lt 0 n with hn | hn
  · have he : n % (2 : Int) ^ 128 = n := Int.emod_eq_of_lt hn (by omega)
    have hmn : (m : Int) = n := by rw [hm_int, he]
    have hm63 : m < 2 ^ 63 := by omega
    have hdivsmall : m / 256 ^ 7 % 256 < 128 := by
      have h7 : (256 : Nat) ^ 7 = 72057594037927936 := by norm_num
      rw [h7]
      omega
    have hland : (m / 256 ^ 7 % 256 &&& 128) = 0 :=
      (land_128 _ (Nat.mod_lt _ (by norm_num))).mpr hdivsmall
    rw [hland]
    norm_num
    rw [i128_filled_0 8 m (by norm_num)]
    have hmod : m % 256 ^ 8 = m := Nat.mod_eq_of_lt (by
      have h8 : (256 : Nat) ^ 8 = 18446744073709551616 := by norm_num
      omega)
    rw [hmod, hmn]
  · have he : n % (2 : Int) ^ 128 = n + 2 ^ 128 := by omega
    have hmval : (m : Int) = n + 2 ^ 128 := by rw [hm_int, he]
    have h8 : (256 : Nat) ^ 8 = 18446744073709551616 := by norm_num
    have hr : ((m % 256 ^ 8 : Nat) : Int) = n + 18446744073709551616 := by
      rw [h8]
      push_cast
      omega
    have hhead_val : m / 256 ^ 7 % 256 = m % 256 ^ 8 / 256 ^ 7 := by
      rw [show (256 : Nat) ^ 8 = 256 ^ 7 * 256 by ring, Nat.mod_mul_right_div_self]
    have hge : 128 ≤ m / 256 ^ 7 % 256 := by
      rw [hhead_val]
      have h7 : (256 : Nat) ^ 7 = 72057594037927936 := by norm_num
      rw [h7]
      omega
    have hland : ((m / 256 ^ 7 % 256 &&& 128) != 0) = true := by
      have hne : (m / 256 ^ 7 % 256 &&& 128) ≠ 0 := by
        intro hz
        have := (land_128 _ (Nat.mod_lt _ (by norm_num))).mp hz
        omega
      simpa using hne
    rw [hland]
    norm_num
    rw [i128_filled_255 8 m (by norm_num)]
    have : ((m % 256 ^ 8 : Nat) : Int) - ((256 ^ 8 : Nat) : Int) = n := by
      rw [hr]
      norm_num
    rw [this]

/-- Decoding the 4-byte unsigned encoding of an in-range `n` recovers `n`:
the decoder never sign-extends an `UnsignedInt` column. -/
theorem read_value_uint_rt (n : Int) (rest : List Nat)
    (hlo : 0 ≤ n) (hhi : n ≤ 2 ^ 32 - 1) :
    read_value .UnsignedInt (beBytes 4 ((n % (2 : Int) ^ 128).toNat) ++ rest) =
      .ok (.Number n, rest) := by
  set m := (n % (2 : Int) ^ 128).toNat with hm_def
  have hm_int : (m : Int) = n % (2 : Int) ^ 128 :=
    Int.toNat_of_nonneg (Int.emod_nonneg n (by norm_num))
  have hb_len : (beBytes 4 m ++ rest).length = 4 + rest.length := by
    simp [beBytes_length]
  have htake : (beBytes 4 m ++ rest).take 4 = beBytes 4 m :=
    List.take_left' (beBytes_length 4 m)
  have hdrop : (beBytes 4 m ++ rest).drop 4 = rest :=
    List.drop_left' (beBytes_length 4 m)
  have hrv : read_value .UnsignedInt (beBytes 4 m ++ rest) =
      if 4 ≤ (beBytes 4 m ++ rest).length then
        .ok (.Number (i128_from_be_bytes
          (List.replicate (16 - 4)
            (if (((beBytes 4 m ++ rest).take 4).headD 0 &&& 128) != 0 && false
              then 255 else 0)
            ++ (beBytes 4 m ++ rest).take 4)),
          (beBytes 4 m ++ rest).drop 4)
      else .error .truncated := rfl
  rw [hrv, htake, hdrop, if_pos (by rw [hb_len]; omega)]
  simp only [Bool.and_false, Bool.false_eq_true, if_false]
  rw [i128_filled_0 4 m (by norm_num)]
  have he : n % (2 : Int) ^ 128 = n := Int.emod_eq_of_lt hlo (by omega)
  have hmn : (m : Int) = n := by rw [hm_int, he]
  have hmod : m % 256 ^ 4 = m := Nat.mod_eq_of_lt (by
    have h4 : (256 : Nat) ^ 4 = 4294967296 := by norm_num
    omega)
  rw [hmod, hmn]

/-- Decoding the 8-byte unsigned encoding of an in-range `n` recovers `n`:
the decoder never sign-extends an `UnsignedBigInt` column. -/
theorem read_value_ubigint_rt (n : Int) (rest : List Nat)
    (hlo : 0 ≤ n) (hhi : n ≤ 2 ^ 64 - 1) :
    read_value .UnsignedBigInt (beBytes 8 ((n % (2 : Int) ^ 128).toNat) ++ rest) =
      .ok (.Number n, rest) := by
  set m := (n % (2 : Int) ^ 128).toNat with hm_def
  have hm_int : (m : Int) = n % (2 : Int) ^ 128 :=
    Int.toNat_of_nonneg (Int.emod_nonneg n (by norm_num))
  have hb_len : (beBytes 8 m ++ rest).length = 8 + rest.length := by
    simp [beBytes_length]
  have htake : (beBytes 8 m ++ rest).take 8 = beBytes 8 m :=
    List.take_left' (beBytes_length 8 m)
  have hdrop : (beBytes 8 m ++ rest).drop 8 = rest :=
    List.drop_left' (beBytes_length 8 m)
  have hrv : read_value .UnsignedBigInt (beBytes 8 m ++ rest) =
      if 8 ≤ (beBytes 8 m ++ rest).length then
        .ok (.Number (i128_from_be_bytes
          (List.replicate (16 - 8)
            (if (((beBytes 8 m ++ rest).take 8).headD 0 &&& 128) != 0 && false
              then 255 else 0)
            ++ (beBytes 8 m ++ rest).take 8)),
          (beBytes 8 m ++ rest).drop 8)
      else .error .truncated := rfl
  rw [hrv, htake, hdrop, if_pos (by rw [hb_len]; omega)]
  simp only [Bool.and_false, Bool.false_eq_true, if_false]
  rw [i128_filled_0 8 m (by norm_num)]
  have he : n % (2 : Int) ^ 128 = n := Int.emod_eq_of_lt hlo (by omega)
  have hmn : (m : Int) = n := by rw [hm_int, he]
  have hmod : m % 256 ^ 8 = m := Nat.mod_eq_of_lt (by
    have h8 : (256 : Nat) ^ 8 = 18446744073709551616 := by norm_num
    omega)
  rw [hmod, hmn]

theorem utf8_length_prefix_bytes_cases (mc : Nat) :
    utf8_length_prefix_bytes mc = 1 ∨ utf8_length_prefix_bytes mc = 2 ∨
      utf8_length_prefix_bytes mc = 4 := by
  unfold utf8_length_prefix_bytes
  split
  · exact Or.inl rfl
  · split
    · exact Or.inr (Or.inl rfl)
    · exact Or.inr (Or.inr rfl)

theorem utf8_length_prefix_bytes_le_8 (mc : Nat) :
    utf8_length_prefix_bytes mc ≤ 8 := by
  rcases utf8_length_prefix_bytes_cases mc with h | h | h <;> omega

theorem svi_bool_eq (b : Bool) :
    serialize_value_into .Bool (.Bool b) = .ok [if b then 1 else 0] := rfl

/-- What `serialize_value_into` emits for a string of encodable length: the
low `utf8_length_prefix_bytes` bytes of the little-endian `usize` byte
length, then the raw payload. -/
theorem svi_string_eq (mc : Nat) (s : List Nat) (h : s.length ≤ 4294967295) :
    serialize_value_into (.Varchar mc) (.String s) =
      .ok (leBytes (utf8_length_prefix_bytes mc) s.length ++ s) := by
  have he : serialize_value_into (.Varchar mc) (.String s) =
      (if 4294967295 < s.length then Except.error EncodeErr.todo_fail
       else Except.ok
        ((leBytes 8 s.length).take (utf8_length_prefix_bytes mc) ++ s)) := rfl
  rw [he, if_neg (by omega)]
  rw [leBytes_take _ 8 _ (utf8_length_prefix_bytes_le_8 mc)]

theorem read_value_bool_rt (b : Bool) (rest : List Nat) :
    read_value .Bool ((if b then 1 else 0) :: rest) = .ok (.Bool b, rest) := by
  cases b <;> rfl

/-- Decoding a correctly prefixed valid-UTF-8 payload recovers the string,
provided the byte length is representable in the prefix width. -/
theorem read_value_string_rt (mc : Nat) (s rest : List Nat)
    (hv : is_valid_utf8 s = true)
    (hlen : s.length < 2 ^ (8 * utf8_length_prefix_bytes mc)) :
    read_value (.Varchar mc)
      (leBytes (utf8_length_prefix_bytes mc) s.length ++ s ++ rest) =
      .ok (.String s, rest) := by
  set p := utf8_length_prefix_bytes mc with hp_def
  have hassoc : leBytes p s.length ++ s ++ rest = leBytes p s.length ++ (s ++ rest) :=
    List.append_assoc _ _ _
  rw [hassoc]
  have hrv : read_value (.Varchar mc) (leBytes p s.length ++ (s ++ rest)) =
      (if p ≤ (leBytes p s.length ++ (s ++ rest)).length then
        if le_value ((leBytes p s.length ++ (s ++ rest)).take p) ≤
            ((leBytes p s.length ++ (s ++ rest)).drop p).length then
          if is_valid_utf8
              (((leBytes p s.length ++ (s ++ rest)).drop p).take
                (le_value ((leBytes p s.length ++ (s ++ rest)).take p))) then
            .ok (.String
              (((leBytes p s.length ++ (s ++ rest)).drop p).take
                (le_value ((leBytes p s.length ++ (s ++ rest)).take p))),
              ((leBytes p s.length ++ (s ++ rest)).drop p).drop
                (le_value ((leBytes p s.length ++ (s ++ rest)).take p)))
          else .error .invalid_utf8
        else .error .truncated
      else .error .truncated) := rfl
  have htake : (leBytes p s.length ++ (s ++ rest)).take p = leBytes p s.length :=
    List.take_left' (leBytes_length p s.length)
  have hdrop : (leBytes p s.length ++ (s ++ rest)).drop p = s ++ rest :=
    List.drop_left' (leBytes_length p s.length)
  have hle : le_value (leBytes p s.length) = s.length := by
    rw [le_value_leBytes p s.length]
    refine Nat.mod_eq_of_lt ?_
    calc s.length < 2 ^ (8 * p) := hlen
    _ = 256 ^ p := by rw [pow_mul]; norm_num
  have hlen_app : (leBytes p s.length ++ (s ++ rest)).length =
      p + (s.length + rest.length) := by
    simp [leBytes_length]
  rw [hrv, htake, hdrop, hle]
  rw [if_pos (by rw [hlen_app]; omega)]
  rw [if_pos (by simp)]
  have hts : (s ++ rest).take s.length = s := List.take_left' rfl
  have hds : (s ++ rest).drop s.length = rest := List.drop_left' rfl
  rw [hts, hds, if_pos hv]

/-- A value satisfying the matching predicate round-trips through one field:
decoding the emitted bytes (with anything appended) returns the value and
leaves exactly the appended bytes unread. -/
theorem field_roundtrip (dt : DataType) (v : Value) (bytes rest : List Nat)
    (hm : value_matches dt v = true)
    (hs : serialize_value_into dt v = .ok bytes) :
    read_value dt (bytes ++ rest) = .ok (v, rest) := by
  cases dt with
  | Bool =>
    cases v with
    | Bool b =>
      rw [svi_bool_eq b] at hs
      injection hs with hb
      subst hb
      exact read_value_bool_rt b rest
    | Number n => simp [value_matches, integer_is_within_range] at hm
    | String s => simp [value_matches] at hm
  | Varchar mc =>
    cases v with
    | String s =>
      have hv : is_valid_utf8 s = true := by
        simp [value_matches] at hm
        exact hm.1
      have hlen : s.length < 2 ^ (8 * utf8_length_prefix_bytes mc) := by
        simp [value_matches] at hm
        exact hm.2
      have hle32 : s.length ≤ 4294967295 := by
        have hc := utf8_length_prefix_bytes_cases mc
        rcases hc with h | h | h <;> rw [h] at hlen <;> omega
      rw [svi_string_eq mc s hle32] at hs
      injection hs with hb
      subst hb
      exact read_value_string_rt mc s rest hv hlen
    | Number n => simp [value_matches, integer_is_within_range] at hm
    | Bool b => simp [value_matches] at hm
  | Int =>
    cases v with
    | Number n =>
      have hrange : integer_is_within_range n .Int = true := by
        simpa [value_matches] using hm
      rw [svi_number_eq .Int n hrange] at hs
      injection hs with hb
      subst hb
      have hb := of_decide_eq_true (by simpa [integer_is_within_range] using hrange)
      exact read_value_int_rt n rest hb.1 hb.2
    | Bool b => simp [value_matches] at hm
    | String s => simp [value_matches] at hm
  | UnsignedInt =>
    cases v with
    | Number n =>
      have hrange : integer_is_within_range n .UnsignedInt = true := by
        simpa [value_matches] using hm
      rw [svi_number_eq .UnsignedInt n hrange] at hs
      injection hs with hb
      subst hb
      have hb := of_decide_eq_true (by simpa [integer_is_within_range] using hrange)
      exact read_value_uint_rt n rest hb.1 hb.2
    | Bool b => simp [value_matches] at hm
    | String s => simp [value_matches] at hm
  | BigInt =>
    cases v with
    | Number n =>
      have hrange : integer_is_within_range n .BigInt = true := by
        simpa [value_matches] using hm
      rw [svi_number_eq .BigInt n hrange] at hs
      injection hs with hb
      subst hb
      have hb := of_decide_eq_true (by simpa [integer_is_within_range] using hrange)
      exact read_value_bigint_rt n rest hb.1 hb.2
    | Bool b => simp [value_matches] at hm
    | String s => simp [value_matches] at hm
  | UnsignedBigInt =>
    cases v with
    | Number n =>
      have hrange : integer_is_within_range n .UnsignedBigInt = true := by
        simpa [value_matches] using hm
      rw [svi_number_eq .UnsignedBigInt n hrange] at hs
      injection hs with hb
      subst hb
      have hb := of_decide_eq_true (by simpa [integer_is_within_range] using hrange)
      exact read_value_ubigint_rt n rest hb.1 hb.2
    | Bool b => simp [value_matches] at hm
    | String s => simp [value_matches] at hm

theorem read_value_varchar_eq (mc : Nat) (buf : List Nat) :
    read_value (.Varchar mc) buf =
      (if utf8_length_prefix_bytes mc ≤ buf.length then
        if le_value (buf.take (utf8_length_prefix_bytes mc)) ≤
            (buf.drop (utf8_length_prefix_bytes mc)).length then
          if is_valid_utf8 ((buf.drop (utf8_length_prefix_bytes mc)).take
              (le_value (buf.take (utf8_length_prefix_bytes mc)))) then
            .ok (.String ((buf.drop (utf8_length_prefix_bytes mc)).take
              (le_value (buf.take (utf8_length_prefix_bytes mc)))),
              (buf.drop (utf8_length_prefix_bytes mc)).drop
                (le_value (buf.take (utf8_length_prefix_bytes mc))))
          else .error .invalid_utf8
        else .error .truncated
      else .error .truncated) := rfl

/-- A `read_exact` on an integer column fails with the recoverable
`UnexpectedEof` error when fewer than `byte_length` bytes remain. -/
theorem read_value_number_short (dt : DataType) (buf : List Nat)
    (hdt : dt = .Int ∨ dt = .UnsignedInt ∨ dt = .BigInt ∨ dt = .UnsignedBigInt)
    (h : buf.length < byte_length_of_integer_type dt) :
    read_value dt buf = .error .truncated := by
  rcases hdt with rfl | rfl | rfl | rfl
  · have hrv : read_value .Int buf =
        if 4 ≤ buf.length then
          .ok (.Number (i128_from_be_bytes
            (List.replicate (16 - 4)
              (if ((buf.take 4).headD 0 &&& 128) != 0 && true then 255 else 0)
              ++ buf.take 4)),
            buf.drop 4)
        else .error .truncated := rfl
    rw [hrv, if_neg (by simp [byte_length_of_integer_type] at h; omega)]
  · have hrv : read_value .UnsignedInt buf =
        if 4 ≤ buf.length then
          .ok (.Number (i128_from_be_bytes
            (List.replicate (16 - 4)
              (if ((buf.take 4).headD 0 &&& 128) != 0 && false then 255 else 0)
              ++ buf.take 4)),
            buf.drop 4)
        else .error .truncated := rfl
    rw [hrv, if_neg (by simp [byte_length_of_integer_type] at h; omega)]
  · have hrv : read_value .BigInt buf =
        if 8 ≤ buf.length then
          .ok (.Number (i128_from_be_bytes
            (List.replicate (16 - 8)
              (if ((buf.take 8).headD 0 &&& 128) != 0 && true then 255 else 0)
              ++ buf.take 8)),
            buf.drop 8)
        else .error .truncated := rfl
    rw [hrv, if_neg (by simp [byte_length_of_integer_type] at h; omega)]
  · have hrv : read_value .UnsignedBigInt buf =
        if 8 ≤ buf.length then
          .ok (.Number (i128_from_be_bytes
            (List.replicate (16 - 8)
              (if ((buf.take 8).headD 0 &&& 128) != 0 && false then 255 else 0)
              ++ buf.take 8)),
            buf.drop 8)
        else .error .truncated := rfl
    rw [hrv, if_neg (by simp [byte_length_of_integer_type] at h; omega)]

/-- Cutting the encoding of one field anywhere before its end makes the
decoder fail with the recoverable truncated-input error. -/
theorem field_truncated (dt : DataType) (v : Value) (bytes : List Nat) (n : Nat)
    (hm : value_matches dt v = true)
    (hs : serialize_value_into dt v = .ok bytes)
    (hn : n < bytes.length) :
    read_value dt (bytes.take n) = .error .truncated := by
  cases dt with
  | Bool =>
    cases v with
    | Bool b =>
      rw [svi_bool_eq b] at hs
      injection hs with hb
      subst hb
      have hn0 : n = 0 := by simpa using hn
      subst hn0
      rfl
    | Number n' => simp [value_matches, integer_is_within_range] at hm
    | String s => simp [value_matches] at hm
  | Varchar mc =>
    cases v with
    | String s =>
      have hv : is_valid_utf8 s = true := by
        simp [value_matches] at hm
        exact hm.1
      have hlen : s.length < 2 ^ (8 * utf8_length_prefix_bytes mc) := by
        simp [value_matches] at hm
        exact hm.2
      have hle32 : s.length ≤ 4294967295 := by
        have hc := utf8_length_prefix_bytes_cases mc
        rcases hc with h | h | h <;> rw [h] at hlen <;> omega
      rw [svi_string_eq mc s hle32] at hs
      injection hs with hb
      subst hb
      set p := utf8_length_prefix_bytes mc with hp_def
      have hlen_bytes : (leBytes p s.length ++ s).length = p + s.length := by
        simp [leBytes_length]
      rw [hlen_bytes] at hn
      have hle : le_value (leBytes p s.length) = s.length := by
        rw [le_value_leBytes p s.length]
        refine Nat.mod_eq_of_lt ?_
        calc s.length < 2 ^ (8 * p) := hlen
        _ = 256 ^ p := by rw [pow_mul]; norm_num
      rcases lt_or_le n p with hnp | hnp
      · have htk : (leBytes p s.length ++ s).take n = (leBytes p s.length).take n := by
          rw [List.take_append_eq_append_take]
          have hz : n - (leBytes p s.length).length = 0 := by
            rw [leBytes_length]; omega
          rw [hz]
          simp
        rw [htk, read_value_varchar_eq]
        rw [if_neg (by rw [List.length_take, leBytes_length]; omega)]
      · have htk : (leBytes p s.length ++ s).take n =
            leBytes p s.length ++ s.take (n - p) := by
          rw [List.take_append_eq_append_take]
          rw [List.take_of_length_le (by rw [leBytes_length]; omega)]
          rw [leBytes_length]
        rw [htk, read_value_varchar_eq]
        have hlen2 : (leBytes p s.length ++ s.take (n - p)).length =
            p + (n - p) := by
          rw [List.length_append, leBytes_length, List.length_take]
          omega
        rw [if_pos (by rw [hlen2]; omega)]
        have htake2 : (leBytes p s.length ++ s.take (n - p)).take p =
            leBytes p s.length := List.take_left' (leBytes_length _ _)
        have hdrop2 : (leBytes p s.length ++ s.take (n - p)).drop p =
            s.take (n - p) := List.drop_left' (leBytes_length _ _)
        rw [htake2, hdrop2, hle]
        rw [if_neg (by rw [List.length_take]; omega)]
    | Number n' => simp [value_matches, integer_is_within_range] at hm
    | Bool b => simp [value_matches] at hm
  | Int =>
    cases v with
    | Number n' =>
      have hrange : integer_is_within_range n' .Int = true := by
        simpa [value_matches] using hm
      rw [svi_number_eq .Int n' hrange] at hs
      injection hs with hb
      subst hb
      refine read_value_number_short .Int _ (Or.inl rfl) ?_
      rw [List.length_take, beBytes_length]
      rw [beBytes_length] at hn
      simp [byte_length_of_integer_type] at hn ⊢
      omega
    | Bool b => simp [value_matches] at hm
    | String s => simp [value_matches] at hm
  | UnsignedInt =>
    cases v with
    | Number n' =>
      have hrange : integer_is_within_range n' .UnsignedInt = true := by
        simpa [value_matches] using hm
      rw [svi_number_eq .UnsignedInt n' hrange] at hs
      injection hs with hb
      subst hb
      refine read_value_number_short .UnsignedInt _ (Or.inr (Or.inl rfl)) ?_
      rw [List.length_take, beBytes_length]
      rw [beBytes_length] at hn
      simp [byte_length_of_integer_type] at hn ⊢
      omega
    | Bool b => simp [value_matches] at hm
    | String s => simp [value_matches] at hm
  | BigInt =>
    cases v with
    | Number n' =>
      have hrange : integer_is_within_range n' .BigInt = true := by
        simpa [value_matches] using hm
      rw [svi_number_eq .BigInt n' hrange] at hs
      injection hs with hb
      subst hb
      refine read_value_number_short .BigInt _ (Or.inr (Or.inr (Or.inl rfl))) ?_
      rw [List.length_take, beBytes_length]
      rw [beBytes_length] at hn
      simp [byte_length_of_integer_type] at hn ⊢
      omega
    | Bool b => simp [value_matches] at hm
    | String s => simp [value_matches] at hm
  | UnsignedBigInt =>
    cases v with
    | Number n' =>
      have hrange : integer_is_within_range n' .UnsignedBigInt = true := by
        simpa [value_matches] using hm
      rw [svi_number_eq .UnsignedBigInt n' hrange] at hs
      injection hs with hb
      subst hb
      refine read_value_number_short .UnsignedBigInt _
        (Or.inr (Or.inr (Or.inr rfl))) ?_
      rw [List.length_take, beBytes_length]
      rw [beBytes_length] at hn
      simp [byte_length_of_integer_type] at hn ⊢
      omega
    | Bool b => simp [value_matches] at hm
    | String s => simp [value_matches] at hm

/-! ## Tuple-level lemmas -/

theorem serialize_fields_cons (col : Column) (v : Value)
    (rest : List (Column × Value)) :
    serialize_fields ((col, v) :: rest) =
      match serialize_value_into col.data_type v with
      | .error e => .error e
      | .ok bytes =>
        match serialize_fields rest with
        | .error e => .error e
        | .ok more => .ok (bytes ++ more) := rfl

theorem read_from_cols_cons (col : Column) (cols : List Column)
    (buf : List Nat) :
    read_from_cols (col :: cols) buf =
      match read_value col.data_type buf with
      | .error e => .error e
      | .ok (v, rest) =>
        match read_from_cols cols rest with
        | .error e => .error e
        | .ok (vs, rest2) => .ok (v :: vs, rest2) := rfl

/-- Round trip of a whole field sequence: decoding the concatenated field
encodings (with anything appended) returns the values and leaves exactly the
appended bytes. -/
theorem fields_roundtrip (cols : List Column) :
    ∀ (vals : List Value) (bytes rest : List Nat),
    cols.length = vals.length →
    ((cols.zip vals).all fun cv => value_matches cv.1.data_type cv.2) = true →
    serialize_fields (cols.zip vals) = .ok bytes →
    read_from_cols cols (bytes ++ rest) = .ok (vals, rest) := by
  induction cols with
  | nil =>
    intro vals bytes rest hlen hall hs
    match vals with
    | [] =>
      have hb : bytes = ([] : List Nat) := by
        have : serialize_fields (([] : List Column).zip ([] : List Value)) =
            .ok [] := rfl
        rw [this] at hs
        injection hs with h
        exact h.symm
      subst hb
      rfl
  | cons col cols ih =>
    intro vals bytes rest hlen hall hs
    match vals with
    | v :: vs =>
      rw [List.zip_cons_cons] at hs hall
      rw [List.all_cons, Bool.and_eq_true] at hall
      obtain ⟨hm1, hall2⟩ := hall
      rw [serialize_fields_cons] at hs
      cases h1 : serialize_value_into col.data_type v with
      | error e => rw [h1] at hs; simp at hs
      | ok bytes1 =>
        rw [h1] at hs
        cases h2 : serialize_fields (cols.zip vs) with
        | error e => rw [h2] at hs; simp at hs
        | ok more =>
          rw [h2] at hs
          simp only [Except.ok.injEq] at hs
          subst hs
          rw [List.append_assoc, read_from_cols_cons]
          rw [field_roundtrip col.data_type v bytes1 (more ++ rest) hm1 h1]
          dsimp only
          rw [ih vs more rest (by simpa using hlen) hall2 h2]

/-- Cutting the concatenated field encodings anywhere before their end makes
the decoder fail with the recoverable truncated-input error. -/
theorem fields_truncated (cols : List Column) :
    ∀ (vals : List Value) (bytes : List Nat) (n : Nat),
    cols.length = vals.length →
    ((cols.zip vals).all fun cv => value_matches cv.1.data_type cv.2) = true →
    serialize_fields (cols.zip vals) = .ok bytes →
    n < bytes.length →
    read_from_cols cols (bytes.take n) = .error .truncated := by
  induction cols with
  | nil =>
    intro vals bytes n hlen hall hs hn
    match vals with
    | [] =>
      have hb : bytes = ([] : List Nat) := by
        have : serialize_fields (([] : List Column).zip ([] : List Value)) =
            .ok [] := rfl
        rw [this] at hs
        injection hs with h
        exact h.symm
      subst hb
      simp at hn
  | cons col cols ih =>
    intro vals bytes n hlen hall hs hn
    match vals with
    | v :: vs =>
      rw [List.zip_cons_cons] at hs hall
      rw [List.all_cons, Bool.and_eq_true] at hall
      obtain ⟨hm1, hall2⟩ := hall
      rw [serialize_fields_cons] at hs
      cases h1 : serialize_value_into col.data_type v with
      | error e => rw [h1] at hs; simp at hs
      | ok bytes1 =>
        rw [h1] at hs
        cases h2 : serialize_fields (cols.zip vs) with
        | error e => rw [h2] at hs; simp at hs
        | ok more =>
          rw [h2] at hs
          simp only [Except.ok.injEq] at hs
          subst hs
          rw [List.length_append] at hn
          rcases lt_or_le n bytes1.length with hcase | hcase
          · have htk : (bytes1 ++ more).take n = bytes1.take n := by
              rw [List.take_append_eq_append_take]
              have hz : n - bytes1.length = 0 := by omega
              rw [hz]
              simp
            rw [htk, read_from_cols_cons]
            rw [field_truncated col.data_type v bytes1 n hm1 h1 hcase]
          · have htk : (bytes1 ++ more).take n =
                bytes1 ++ more.take (n - bytes1.length) := by
              rw [List.take_append_eq_append_take]
              rw [List.take_of_length_le hcase]
            rw [htk, read_from_cols_cons]
            rw [field_roundtrip col.data_type v bytes1
              (more.take (n - bytes1.length)) hm1 h1]
            dsimp only
            rw [ih vs more (n - bytes1.length) (by simpa using hlen) hall2 h2
              (by omega)]

/-- A value satisfying the matching predicate always encodes successfully. -/
theorem svi_ok_of_matches (dt : DataType) (v : Value)
    (hm : value_matches dt v = true) :
    ∃ bytes, serialize_value_into dt v = .ok bytes := by
  cases dt with
  | Bool =>
    cases v with
    | Bool b => exact ⟨_, svi_bool_eq b⟩
    | Number n => simp [value_matches, integer_is_within_range] at hm
    | String s => simp [value_matches] at hm
  | Varchar mc =>
    cases v with
    | String s =>
      have hlen : s.length < 2 ^ (8 * utf8_length_prefix_bytes mc) := by
        simp [value_matches] at hm
        exact hm.2
      have hle32 : s.length ≤ 4294967295 := by
        rcases utf8_length_prefix_bytes_cases mc with h | h | h <;>
          rw [h] at hlen <;> omega
      exact ⟨_, svi_string_eq mc s hle32⟩
    | Number n => simp [value_matches, integer_is_within_range] at hm
    | Bool b => simp [value_matches] at hm
  | Int =>
    cases v with
    | Number n =>
      exact ⟨_, svi_number_eq .Int n (by simpa [value_matches] using hm)⟩
    | Bool b => simp [value_matches] at hm
    | String s => simp [value_matches] at hm
  | UnsignedInt =>
    cases v with
    | Number n =>
      exact ⟨_, svi_number_eq .UnsignedInt n (by simpa [value_matches] using hm)⟩
    | Bool b => simp [value_matches] at hm
    | String s => simp [value_matches] at hm
  | BigInt =>
    cases v with
    | Number n =>
      exact ⟨_, svi_number_eq .BigInt n (by simpa [value_matches] using hm)⟩
    | Bool b => simp [value_matches] at hm
    | String s => simp [value_matches] at hm
  | UnsignedBigInt =>
    cases v with
    | Number n =>
      exact ⟨_, svi_number_eq .UnsignedBigInt n (by simpa [value_matches] using hm)⟩
    | Bool b => simp [value_matches] at hm
    | String s => simp [value_matches] at hm

/-- A matching field sequence always encodes successfully. -/
theorem fields_ok (cols : List Column) :
    ∀ vals : List Value,
    cols.length = vals.length →
    ((cols.zip vals).all fun cv => value_matches cv.1.data_type cv.2) = true →
    ∃ bytes, serialize_fields (cols.zip vals) = .ok bytes := by
  induction cols with
  | nil =>
    intro vals hlen hall
    match vals with
    | [] => exact ⟨[], rfl⟩
  | cons col cols ih =>
    intro vals hlen hall
    match vals with
    | v :: vs =>
      rw [List.zip_cons_cons] at hall ⊢
      rw [List.all_cons, Bool.and_eq_true] at hall
      obtain ⟨hm1, hall2⟩ := hall
      obtain ⟨bytes1, h1⟩ := svi_ok_of_matches col.data_type v hm1
      obtain ⟨more, h2⟩ := ih vs (by simpa using hlen) hall2
      refine ⟨bytes1 ++ more, ?_⟩
      rw [serialize_fields_cons, h1, h2]

/-- The summand `size_of` computes for a column equals the length of the
bytes `serialize_value_into` emits for the value stored at that column. -/
theorem size_of_col_of_svi (col : Column) (v : Value) (bytes : List Nat)
    (tuple : List Value) (i : Nat)
    (ht : tuple[i]? = some v)
    (hs : serialize_value_into col.data_type v = .ok bytes) :
    size_of_col tuple i col = some bytes.length := by
  cases hdt : col.data_type with
  | Bool =>
    rw [hdt] at hs
    cases v with
    | Bool b =>
      rw [svi_bool_eq b] at hs
      injection hs with hb
      subst hb
      simp [size_of_col, hdt]
    | Number n =>
      have : serialize_value_into .Bool (.Number n) =
          (if integer_is_within_range n .Bool then
            Except.ok ((i128_to_be_bytes n).drop ((i128_to_be_bytes n).length - 0))
          else Except.error EncodeErr.assert_fail) := rfl
      rw [this] at hs
      simp [integer_is_within_range] at hs
    | String st =>
      have : serialize_value_into .Bool (.String st) =
          Except.error EncodeErr.mismatch_fail := rfl
      rw [this] at hs
      simp at hs
  | Varchar mc =>
    rw [hdt] at hs
    cases v with
    | String st =>
      rcases le_or_lt st.length 4294967295 with h32 | h32
      · rw [svi_string_eq mc st h32] at hs
        injection hs with hb
        subst hb
        simp [size_of_col, hdt, ht, leBytes_length]
      · have : serialize_value_into (.Varchar mc) (.String st) =
            (if 4294967295 < st.length then Except.error EncodeErr.todo_fail
             else Except.ok
              ((leBytes 8 st.length).take (utf8_length_prefix_bytes mc) ++ st)) := rfl
        rw [this, if_pos h32] at hs
        simp at hs
    | Number n =>
      have : serialize_value_into (.Varchar mc) (.Number n) =
          (if integer_is_within_range n (.Varchar mc) then
            Except.ok ((i128_to_be_bytes n).drop ((i128_to_be_bytes n).length - 0))
          else Except.error EncodeErr.assert_fail) := rfl
      rw [this] at hs
      simp [integer_is_within_range] at hs
    | Bool b =>
      have : serialize_value_into (.Varchar mc) (.Bool b) =
          Except.error EncodeErr.mismatch_fail := rfl
      rw [this] at hs
      simp at hs
  | Int =>
    rw [hdt] at hs
    cases v with
    | Number n =>
      rcases hr : integer_is_within_range n .Int with hfalse | htrue
      · have : serialize_value_into .Int (.Number n) =
            (if integer_is_within_range n .Int then
              Except.ok ((i128_to_be_bytes n).drop ((i128_to_be_bytes n).length - 4))
            else Except.error EncodeErr.assert_fail) := rfl
        rw [this, hr] at hs
        simp at hs
      · rw [svi_number_eq .Int n hr] at hs
        injection hs with hb
        subst hb
        simp [size_of_col, hdt, beBytes_length, byte_length_of_integer_type]
    | Bool b =>
      have : serialize_value_into .Int (.Bool b) =
          Except.error EncodeErr.mismatch_fail := rfl
      rw [this] at hs
      simp at hs
    | String st =>
      have : serialize_value_into .Int (.String st) =
          Except.error EncodeErr.mismatch_fail := rfl
      rw [this] at hs
      simp at hs
  | UnsignedInt =>
    rw [hdt] at hs
    cases v with
    | Number n =>
      rcases hr : integer_is_within_range n .UnsignedInt with hfalse | htrue
      · have : serialize_value_into .UnsignedInt (.Number n) =
            (if integer_is_within_range n .UnsignedInt then
              Except.ok ((i128_to_be_bytes n).drop ((i128_to_be_bytes n).length - 4))
            else Except.error EncodeErr.assert_fail) := rfl
        rw [this, hr] at hs
        simp at hs
      · rw [svi_number_eq .UnsignedInt n hr] at hs
        injection hs with hb
        subst hb
        simp [size_of_col, hdt, beBytes_length, byte_length_of_integer_type]
    | Bool b =>
      have : serialize_value_into .UnsignedInt (.Bool b) =
          Except.error EncodeErr.mismatch_fail := rfl
      rw [this] at hs
      simp at hs
    | String st =>
      have : serialize_value_into .UnsignedInt (.String st) =
          Except.error EncodeErr.mismatch_fail := rfl
      rw [this] at hs
      simp at hs
  | BigInt =>
    rw [hdt] at hs
    cases v with
    | Number n =>
      rcases hr : integer_is_within_range n .BigInt with hfalse | htrue
      · have : serialize_value_into .BigInt (.Number n) =
            (if integer_is_within_range n .BigInt then
              Except.ok ((i128_to_be_bytes n).drop ((i128_to_be_bytes n).length - 8))
            else Except.error EncodeErr.assert_fail) := rfl
        rw [this, hr] at hs
        simp at hs
      · rw [svi_number_eq .BigInt n hr] at hs
        injection hs with hb
        subst hb
        simp [size_of_col, hdt, beBytes_length, byte_length_of_integer_type]
    | Bool b =>
      have : serialize_value_into .BigInt (.Bool b) =
          Except.error EncodeErr.mismatch_fail := rfl
      rw [this] at hs
      simp at hs
    | String st =>
      have : serialize_value_into .BigInt (.String st) =
          Except.error EncodeErr.mismatch_fail := rfl
      rw [this] at hs
      simp at hs
  | UnsignedBigInt =>
    rw [hdt] at hs
    cases v with
    | Number n =>
      rcases hr : integer_is_within_range n .UnsignedBigInt with hfalse | htrue
      · have : serialize_value_into .UnsignedBigInt (.Number n) =
            (if integer_is_within_range n .UnsignedBigInt then
              Except.ok ((i128_to_be_bytes n).drop ((i128_to_be_bytes n).length - 8))
            else Except.error EncodeErr.assert_fail) := rfl
        rw [this, hr] at hs
        simp at hs
      · rw [svi_number_eq .UnsignedBigInt n hr] at hs
        injection hs with hb
        subst hb
        simp [size_of_col, hdt, beBytes_length, byte_length_of_integer_type]
    | Bool b =>
      have : serialize_value_into .UnsignedBigInt (.Bool b) =
          Except.error EncodeErr.mismatch_fail := rfl
      rw [this] at hs
      simp at hs
    | String st =>
      have : serialize_value_into .UnsignedBigInt (.String st) =
          Except.error EncodeErr.mismatch_fail := rfl
      rw [this] at hs
      simp at hs

/-- `size_of_go` on a successfully encoded field sequence returns exactly the
encoded length, at any index offset into the full tuple. -/
theorem size_of_go_of_fields (cols : List Column) :
    ∀ (vals pre : List Value) (bytes : List Nat),
    cols.length = vals.length →
    serialize_fields (cols.zip vals) = .ok bytes →
    size_of_go (pre ++ vals) pre.length cols = some bytes.length := by
  induction cols with
  | nil =>
    intro vals pre bytes hlen hs
    match vals with
    | [] =>
      have : serialize_fields (([] : List Column).zip ([] : List Value)) =
          .ok [] := rfl
      rw [this] at hs
      injection hs with h
      subst h
      rfl
  | cons col cols ih =>
    intro vals pre bytes hlen hs
    match vals with
    | v :: vs =>
      rw [List.zip_cons_cons, serialize_fields_cons] at hs
      cases h1 : serialize_value_into col.data_type v with
      | error e => rw [h1] at hs; simp at hs
      | ok bytes1 =>
        rw [h1] at hs
        cases h2 : serialize_fields (cols.zip vs) with
        | error e => rw [h2] at hs; simp at hs
        | ok more =>
          rw [h2] at hs
          simp only [Except.ok.injEq] at hs
          subst hs
          have ht : (pre ++ v :: vs)[pre.length]? = some v := by
            rw [List.getElem?_append_right (Nat.le_refl pre.length)]
            simp
          show size_of_go (pre ++ v :: vs) pre.length (col :: cols) = _
          have hstep : size_of_go (pre ++ v :: vs) pre.length (col :: cols) =
              match size_of_col (pre ++ v :: vs) pre.length col with
              | none => none
              | some s =>
                match size_of_go (pre ++ v :: vs) (pre.length + 1) cols with
                | none => none
                | some rest => some (s + rest) := rfl
          rw [hstep, size_of_col_of_svi col v bytes1 _ _ ht h1]
          have hshift : pre ++ v :: vs = (pre ++ [v]) ++ vs := by simp
          have hlen1 : pre.length + 1 = (pre ++ [v]).length := by simp
          rw [hshift, hlen1, ih vs (pre ++ [v]) more (by simpa using hlen) h2]
          simp [List.length_append]

/-! ## Claim theorems -/

/-- C1: the claim asserts that for any two in-range values `a < b` of one
integer column type, `serialize_key` output for `a` is lexicographically below
that for `b`.  The code violates this for signed types: two's-complement
big-endian without a sign-bit flip makes every negative key compare above
every non-negative key under byte-wise comparison, contradicting the module
documentation's stated purpose ("big endian ... allows the BTree to compare
them using a simple memcmp()").  At the failing input `a = -1 < b = 0` of type
`Int`, `serialize_key` yields `FF FF FF FF` for `a` and `00 00 00 00` for `b`,
and `FF FF FF FF` is NOT lexicographically below `00 00 00 00` — the order is
exactly reversed. -/
theorem C1_signed_key_order_code_bug :
    (-1 : Int) < 0 ∧
    integer_is_within_range (-1) .Int = true ∧
    integer_is_within_range 0 .Int = true ∧
    serialize_key .Int (.Number (-1)) = .ok [255, 255, 255, 255] ∧
    serialize_key .Int (.Number 0) = .ok [0, 0, 0, 0] ∧
    bytes_lt [255, 255, 255, 255] [0, 0, 0, 0] = false ∧
    bytes_lt [0, 0, 0, 0] [255, 255, 255, 255] = true := by
  refine ⟨by norm_num, by decide, by decide, ?_, ?_, by decide, by decide⟩ <;> rfl

/-- C2 (amended): a value sequence matching its schema — variants match,
integers in range, text valid UTF-8, AND (the amendment) each text value's
byte length representable in its column's length-prefix width — serializes
successfully and deserializes back to exactly the original values.  In
particular this covers the signed minima/maxima, zero, −1, and the unsigned
maxima (see the witness). -/
theorem C2_roundtrip (schema : Schema) (vals : List Value)
    (h : tuple_matches schema vals = true) :
    ∃ buf, serialize schema vals = .ok buf ∧ deserialize buf schema = .ok vals := by
  rw [tuple_matches, Bool.and_eq_true, decide_eq_true_eq] at h
  obtain ⟨hlen, hall⟩ := h
  obtain ⟨buf, hs⟩ := fields_ok schema.columns vals hlen hall
  refine ⟨buf, ?_, ?_⟩
  · unfold serialize
    rw [if_pos hlen, hs]
  · unfold deserialize read_from
    have hrt := fields_roundtrip schema.columns vals buf [] hlen hall hs
    rw [List.append_nil] at hrt
    rw [hrt]

/-- C2 witness: a tuple holding the 32/64-bit signed minimum and maximum,
zero, −1, the 32/64-bit unsigned maxima, a boolean and a short string
round-trips exactly. -/
theorem C2_roundtrip_witness :
    ∃ buf,
      serialize (Schema.mk [⟨[], .Int⟩, ⟨[], .Int⟩, ⟨[], .BigInt⟩,
          ⟨[], .BigInt⟩, ⟨[], .UnsignedInt⟩, ⟨[], .UnsignedBigInt⟩,
          ⟨[], .BigInt⟩, ⟨[], .BigInt⟩, ⟨[], .Bool⟩, ⟨[], .Varchar 5⟩])
        [.Number (-2147483648), .Number 2147483647,
          .Number (-9223372036854775808), .Number 9223372036854775807,
          .Number 4294967295, .Number 18446744073709551615,
          .Number 0, .Number (-1), .Bool true, .String [104, 105]] = .ok buf ∧
      deserialize buf
        (Schema.mk [⟨[], .Int⟩, ⟨[], .Int⟩, ⟨[], .BigInt⟩,
          ⟨[], .BigInt⟩, ⟨[], .UnsignedInt⟩, ⟨[], .UnsignedBigInt⟩,
          ⟨[], .BigInt⟩, ⟨[], .BigInt⟩, ⟨[], .Bool⟩, ⟨[], .Varchar 5⟩]) =
        .ok [.Number (-2147483648), .Number 2147483647,
          .Number (-9223372036854775808), .Number 9223372036854775807,
          .Number 4294967295, .Number 18446744073709551615,
          .Number 0, .Number (-1), .Bool true, .String [104, 105]] :=
  C2_roundtrip _ _ (by decide)

/-- C2 counterexample: the claim as stated (without the prefix-width bound)
is false.  A 256-byte string under a `Varchar(0)` column matches the column's
kind and is valid UTF-8, yet the 1-byte length prefix silently truncates
256 to 0, so decoding returns the empty string, not the original value. -/
theorem C2_roundtrip_counterexample :
    is_valid_utf8 (List.replicate 256 97) = true ∧
    serialize (Schema.mk [⟨[], .Varchar 0⟩]) [.String (List.replicate 256 97)] =
      .ok (0 :: List.replicate 256 97) ∧
    deserialize (0 :: List.replicate 256 97) (Schema.mk [⟨[], .Varchar 0⟩]) =
      .ok [.String []] ∧
    Value.String [] ≠ Value.String (List.replicate 256 97) := by
  refine ⟨by decide, ?_, ?_, by decide⟩ <;> rfl

/-- C3: for every schema and value sequence that `serialize` accepts (which
is exactly the matching, in-range sequences — anything else panics), the
length of the produced buffer equals what `size_of` reports. -/
theorem C3_size_of_eq_length (schema : Schema) (vals : List Value)
    (buf : List Nat) (hs : serialize schema vals = .ok buf) :
    size_of vals schema = some buf.length := by
  unfold serialize at hs
  by_cases hlen : schema.columns.length = vals.length
  · rw [if_pos hlen] at hs
    unfold size_of
    have h := size_of_go_of_fields schema.columns vals [] buf hlen hs
    simpa using h
  · rw [if_neg hlen] at hs
    simp at hs

/-- C3 witness at a concrete three-column tuple whose encoding is 8 bytes. -/
theorem C3_size_of_eq_length_witness :
    size_of [Value.Bool true, Value.Number 5, Value.String [104, 105]]
      (Schema.mk [⟨[], .Bool⟩, ⟨[], .Int⟩, ⟨[], .Varchar 10⟩]) = some 8 :=
  C3_size_of_eq_length _ _ [1, 0, 0, 0, 5, 2, 104, 105] (by rfl)

/-- C4 (amended): an out-of-range integer makes the encoder fail its
`assert!` — modelled as `EncodeErr.assert_fail`, which is a PANIC (process
abort), not a recoverable error: the Rust encoder returns a plain `Vec<u8>`
and has no error channel.  The value is never silently truncated: no byte
buffer is produced at all, for `serialize_key` and for `serialize` alike. -/
theorem C4_out_of_range_asserts (dt : DataType) (n : Int)
    (hdt : dt = .Int ∨ dt = .UnsignedInt ∨ dt = .BigInt ∨ dt = .UnsignedBigInt)
    (h : integer_is_within_range n dt = false) :
    serialize_key dt (.Number n) = .error .assert_fail ∧
    serialize (Schema.mk [⟨[], dt⟩]) [.Number n] = .error .assert_fail := by
  have hv : serialize_value_into dt (.Number n) = .error .assert_fail := by
    rcases hdt with rfl | rfl | rfl | rfl
    · have he : serialize_value_into .Int (.Number n) =
          (if integer_is_within_range n .Int then
            Except.ok ((i128_to_be_bytes n).drop ((i128_to_be_bytes n).length - 4))
          else Except.error EncodeErr.assert_fail) := rfl
      rw [he, h]
      rfl
    · have he : serialize_value_into .UnsignedInt (.Number n) =
          (if integer_is_within_range n .UnsignedInt then
            Except.ok ((i128_to_be_bytes n).drop ((i128_to_be_bytes n).length - 4))
          else Except.error EncodeErr.assert_fail) := rfl
      rw [he, h]
      rfl
    · have he : serialize_value_into .BigInt (.Number n) =
          (if integer_is_within_range n .BigInt then
            Except.ok ((i128_to_be_bytes n).drop ((i128_to_be_bytes n).length - 8))
          else Except.error EncodeErr.assert_fail) := rfl
      rw [he, h]
      rfl
    · have he : serialize_value_into .UnsignedBigInt (.Number n) =
          (if integer_is_within_range n .UnsignedBigInt then
            Except.ok ((i128_to_be_bytes n).drop ((i128_to_be_bytes n).length - 8))
          else Except.error EncodeErr.assert_fail) := rfl
      rw [he, h]
      rfl
  constructor
  · exact hv
  · have hser : serialize (Schema.mk [⟨[], dt⟩]) [.Number n] =
        serialize_fields [(⟨[], dt⟩, .Number n)] := by
      unfold serialize
      rfl
    rw [hser, serialize_fields_cons]
    rw [hv]

/-- C4 witness: `2^31` is out of range for `Int`; encoding it hits the
assertion panic through both entry points. -/
theorem C4_out_of_range_asserts_witness :
    serialize_key .Int (.Number 2147483648) = .error .assert_fail ∧
    serialize (Schema.mk [⟨[], .Int⟩]) [.Number 2147483648] =
      .error .assert_fail :=
  C4_out_of_range_asserts .Int 2147483648 (Or.inl rfl) (by decide)

/-- C4 counterexample: at the concrete out-of-range input `2^31` for an `Int`
column, the encoder's outcome is the `assert!` PANIC (`assert_fail` — a
process abort; the Rust function has no error return), not the recoverable
range-violation error the claim requires. -/
theorem C4_counterexample :
    serialize_key .Int (.Number 2147483648) = .error EncodeErr.assert_fail ∧
    serialize_key .UnsignedInt (.Number (-1)) = .error EncodeErr.assert_fail := by
  constructor <;> rfl

/-- C5 (amended): `read_from` — the `io::Result` decoder — returns the
RECOVERABLE truncated-input error on every strict prefix of a valid tuple
encoding (it can only inspect the bytes given to it, never beyond).  The
public `deserialize` wrapper, however, `.unwrap()`s that error into a panic:
see the counterexample. -/
theorem C5_read_from_truncated (schema : Schema) (vals : List Value)
    (buf : List Nat) (n : Nat)
    (hm : tuple_matches schema vals = true)
    (hs : serialize schema vals = .ok buf)
    (hn : n < buf.length) :
    read_from (buf.take n) schema = .error .truncated := by
  rw [tuple_matches, Bool.and_eq_true, decide_eq_true_eq] at hm
  obtain ⟨hlen, hall⟩ := hm
  unfold serialize at hs
  rw [if_pos hlen] at hs
  unfold read_from
  exact fields_truncated schema.columns vals buf n hlen hall hs hn

/-- C5 witness: giving only 2 of the 4 bytes of an encoded `Int` makes
`read_from` fail with the recoverable truncated-input error. -/
theorem C5_read_from_truncated_witness :
    read_from (List.take 2 [0, 0, 0, 7]) (Schema.mk [⟨[], .Int⟩]) =
      .error .truncated :=
  C5_read_from_truncated (Schema.mk [⟨[], .Int⟩]) [.Number 7] [0, 0, 0, 7] 2
    (by decide) (by rfl) (by decide)

/-- C5 counterexample: the claim as stated is false of the public decode
path: `deserialize` (which the spec's `decode(bytes, schema)` denotes)
`.unwrap()`s the truncated-input `io::Error`, so an empty buffer for a
one-boolean schema ABORTS the process — the `.error` outcome of the
`deserialize` model is a panic, since the Rust function returns a plain
`Vec<Value>` with no error channel. -/
theorem C5_counterexample :
    deserialize [] (Schema.mk [⟨[], .Bool⟩]) = .error DecodeErr.truncated := rfl

/-- C6 (amended): invalid UTF-8 in a text payload makes the decoder abort:
`String::from_utf8(..).unwrap()` PANICS (modelled `DecodeErr.invalid_utf8`),
it is not returned as a recoverable decode error.  Only short input produces
the recoverable `truncated` io error. -/
theorem C6_invalid_utf8_panics (mc : Nat) (s rest : List Nat)
    (hlen : s.length < 2 ^ (8 * utf8_length_prefix_bytes mc))
    (hv : is_valid_utf8 s = false) :
    read_value (.Varchar mc)
      (leBytes (utf8_length_prefix_bytes mc) s.length ++ s ++ rest) =
      .error .invalid_utf8 := by
  set p := utf8_length_prefix_bytes mc with hp_def
  have hassoc : leBytes p s.length ++ s ++ rest =
      leBytes p s.length ++ (s ++ rest) := List.append_assoc _ _ _
  rw [hassoc, read_value_varchar_eq]
  have htake : (leBytes p s.length ++ (s ++ rest)).take p = leBytes p s.length :=
    List.take_left' (leBytes_length p s.length)
  have hdrop : (leBytes p s.length ++ (s ++ rest)).drop p = s ++ rest :=
    List.drop_left' (leBytes_length p s.length)
  have hle : le_value (leBytes p s.length) = s.length := by
    rw [le_value_leBytes p s.length]
    refine Nat.mod_eq_of_lt ?_
    calc s.length < 2 ^ (8 * p) := hlen
    _ = 256 ^ p := by rw [pow_mul]; norm_num
  have hlen_app : (leBytes p s.length ++ (s ++ rest)).length =
      p + (s.length + rest.length) := by
    simp [leBytes_length]
  rw [htake, hdrop, hle]
  rw [if_pos (by rw [hlen_app]; omega)]
  rw [if_pos (by simp)]
  have hts : (s ++ rest).take s.length = s := List.take_left' rfl
  rw [hts]
  rw [if_neg (by simp [hv])]

/-- C6 witness: the lone byte `0xFF` under a correct length prefix is invalid
UTF-8 and aborts the decoder. -/
theorem C6_invalid_utf8_panics_witness :
    read_value (.Varchar 0)
      (leBytes (utf8_length_prefix_bytes 0) 1 ++ [255] ++ []) =
      .error .invalid_utf8 :=
  C6_invalid_utf8_panics 0 [255] [] (by decide) (by decide)

/-- C6 counterexample: the claim as stated — a recoverable decode error — is
false: decoding the buffer `[1, 0xFF]` under a `Varchar(0)` column reaches
`String::from_utf8(..).unwrap()`, a panic (`invalid_utf8` models that abort,
distinct from the recoverable `truncated` io error the code returns for short
reads). -/
theorem C6_counterexample :
    is_valid_utf8 [255] = false ∧
    read_from [1, 255] (Schema.mk [⟨[], .Varchar 0⟩]) =
      .error DecodeErr.invalid_utf8 := by
  constructor <;> rfl

/-- C7: the length-prefix width is 1 byte below a 64-character bound, 2 bytes
from 64 up to (not including) 16384, and 4 bytes from 16384 on; in particular
bounds 10 / 1000 / 100000 give widths 1 / 2 / 4; and encoding an N-byte
string under any bound yields exactly `prefix_width + N` bytes. -/
theorem C7_prefix_width :
    (∀ mc : Nat, utf8_length_prefix_bytes mc =
      if mc < 64 then 1 else if mc < 16384 then 2 else 4) ∧
    utf8_length_prefix_bytes 10 = 1 ∧
    utf8_length_prefix_bytes 1000 = 2 ∧
    utf8_length_prefix_bytes 100000 = 4 ∧
    ∀ (mc : Nat) (s : List Nat), s.length ≤ 4294967295 →
      ∃ buf, serialize_key (.Varchar mc) (.String s) = .ok buf ∧
        buf.length = utf8_length_prefix_bytes mc + s.length := by
  refine ⟨fun mc => rfl, rfl, rfl, rfl, ?_⟩
  intro mc s h
  refine ⟨_, svi_string_eq mc s h, ?_⟩
  simp [leBytes_length]

/-- C7 witness: a 2-byte string under bound 10 encodes into 1 + 2 bytes. -/
theorem C7_prefix_width_witness :
    ∃ buf, serialize_key (.Varchar 10) (.String [104, 105]) = .ok buf ∧
      buf.length = utf8_length_prefix_bytes 10 + [104, 105].length :=
  C7_prefix_width.2.2.2.2 10 [104, 105] (by decide)

/-- C8 (amended): the length prefix holds the byte length REDUCED MODULO
`256 ^ width`, little-endian — exact only when the byte length is
representable in the chosen width.  Oversized strings are NOT rejected:
below `2^32` the prefix silently truncates (see the counterexample), and
only lengths above `u32::MAX` abort, via a `todo!()` panic rather than a
recoverable rejection. -/
theorem C8_prefix_le_mod (mc : Nat) (s : List Nat) :
    (s.length ≤ 4294967295 →
      serialize_key (.Varchar mc) (.String s) =
        .ok (leBytes (utf8_length_prefix_bytes mc) s.length ++ s) ∧
      le_value (leBytes (utf8_length_prefix_bytes mc) s.length) =
        s.length % 256 ^ utf8_length_prefix_bytes mc ∧
      (s.length < 256 ^ utf8_length_prefix_bytes mc →
        le_value (leBytes (utf8_length_prefix_bytes mc) s.length) = s.length)) ∧
    (4294967295 < s.length →
      serialize_key (.Varchar mc) (.String s) = .error .todo_fail) := by
  constructor
  · intro h
    refine ⟨svi_string_eq mc s h, le_value_leBytes _ _, fun hrep => ?_⟩
    rw [le_value_leBytes]
    exact Nat.mod_eq_of_lt hrep
  · intro h
    have he : serialize_value_into (.Varchar mc) (.String s) =
        (if 4294967295 < s.length then Except.error EncodeErr.todo_fail
         else Except.ok
          ((leBytes 8 s.length).take (utf8_length_prefix_bytes mc) ++ s)) := rfl
    show serialize_value_into (.Varchar mc) (.String s) = _
    rw [he, if_pos h]

/-- C8 witness: a 1-byte string under bound 0 gets the exact little-endian
prefix `[1]`. -/
theorem C8_prefix_le_mod_witness :
    serialize_key (.Varchar 0) (.String [97]) =
      .ok (leBytes (utf8_length_prefix_bytes 0) 1 ++ [97]) ∧
    le_value (leBytes (utf8_length_prefix_bytes 0) 1) =
      1 % 256 ^ utf8_length_prefix_bytes 0 ∧
    (1 < 256 ^ utf8_length_prefix_bytes 0 →
      le_value (leBytes (utf8_length_prefix_bytes 0) 1) = 1) :=
  (C8_prefix_le_mod 0 [97]).1 (by decide)

/-- C8 counterexample: a 256-byte string under a `Varchar(0)` column (1-byte
prefix) is NOT rejected before encoding — `serialize_key` succeeds — and the
prefix byte written is `0 = 256 % 256`, not the exact byte length 256. -/
theorem C8_counterexample :
    serialize_key (.Varchar 0) (.String (List.replicate 256 97)) =
      .ok (0 :: List.replicate 256 97) ∧
    (List.replicate 256 97).length = 256 ∧
    le_value [0] = 0 ∧ (0 : Nat) ≠ 256 := by
  refine ⟨?_, by decide, by decide, by decide⟩
  rfl

/-- C9: the `Response::EmptySet` frame is the 4-byte little-endian payload
length — always 5 — then the ASCII `!` discriminator (byte 33), then the
4-byte little-endian affected-row count; 9 affected rows yields exactly
`05 00 00 00 21 09 00 00 00`. -/
theorem C9_empty_set_layout :
    (∀ n : Nat, encode_empty_set n = [5, 0, 0, 0, 33] ++ leBytes 4 n ∧
      ((encode_empty_set n).drop 4).length = 5) ∧
    encode_empty_set 9 = [5, 0, 0, 0, 33, 9, 0, 0, 0] := by
  constructor
  · intro n
    refine ⟨rfl, ?_⟩
    simp [encode_empty_set, leBytes_length]
  · rfl

/-- C10: decoding a boolean field is total on every byte value: the byte 0
decodes to `false` and every nonzero byte — not only 1 — decodes to `true`,
consuming exactly one byte. -/
theorem C10_bool_decode_total (b : Nat) (rest : List Nat) (hb : b < 256) :
    read_from (b :: rest) (Schema.mk [⟨[], .Bool⟩]) =
      .ok ([.Bool (b != 0)], rest) ∧
    ((b != 0) = true ↔ b ≠ 0) ∧ ((b != 0) = false ↔ b = 0) := by
  refine ⟨rfl, by simp, by simp⟩

/-- C10 witness: the byte 2 — a value `encode` never produces — decodes to
`true`. -/
theorem C10_bool_decode_total_witness :
    read_from [2, 9] (Schema.mk [⟨[], .Bool⟩]) =
      .ok ([.Bool (2 != 0)], [9]) ∧
    (((2 : Nat) != 0) = true ↔ (2 : Nat) ≠ 0) ∧
    (((2 : Nat) != 0) = false ↔ (2 : Nat) = 0) :=
  C10_bool_decode_total 2 [9] (by decide)

end MyDb
